import Mathlib

set_option synthInstance.maxSize 512

/-!
Verification of the order-book engine in `server.py`.

The engine consists of four functions, embedded here one-to-one:
* `add_book`   — insertion/aging step (Python generator `add_book`);
* `clear_order` — crossing resolver (recursive `clear_order`);
* `clear_book`  — book uncrossing loop (`clear_book`'s `while` loop);
* `order_book`  — orchestrator emitting one snapshot per incoming order.

Prices are two-decimal currency values, modelled as `ℚ`; sizes and
remaining lives are Python `int`s, modelled as `ℤ`.  A ledger entry is
the tuple `(price, size, remaining_life)` exactly as in the source.
Python's implicit `return None` is `Except.ok none`; the `IndexError`
raised by `book[0]` on an empty list is `Except.error ()`.
-/

/-- A resting order `(price, size, remaining_life)`. -/
abbrev Entry : Type := ℚ × ℤ × ℤ

/-- A side ledger: an ordered sequence of resting orders. -/
abbrev Ledger : Type := List Entry

/-- `operator.ge`, the default crossing comparator. -/
def opGe (a b : ℚ) : Bool := decide (b ≤ a)

/-- Python's `min` on two integers. -/
def intMin (a b : ℤ) : ℤ := if a ≤ b then a else b

/-- The aging part of the generator `add_book`: for each `(o, s, age)`
in the book, if `age > 0` yield `(o, s, age - 1)`. -/
def ageBook : Ledger → Ledger
  | [] => []
  | (o, s, age) :: rest =>
    if 0 < age then (o, s, age - 1) :: ageBook rest else ageBook rest

/-- `add_book(book, order, size, _age=10)`: yield the new order at the
given age, then age the rest of the book. -/
def add_book (book : Ledger) (order : ℚ) (size : ℤ) (age : ℤ) : Ledger :=
  (order, size, age) :: ageBook book

/-- `clear_order(order, size, book, op=operator.ge, _notional=0)`.
`book[0]` on an empty list raises `IndexError`, hence `Except.error ()`
in that case; falling off the end of the function returns `None`,
hence `Except.ok none`. -/
def clear_order (order : ℚ) (size : ℤ) (book : Ledger)
    (op : ℚ → ℚ → Bool) (notional : ℚ) : Except Unit (Option (ℚ × Ledger)) :=
  match book with
  | [] => Except.error ()
  | (top_order, top_size, age) :: tail =>
    if op order top_order then
      let notional2 : ℚ := notional + ((intMin size top_size : ℤ) : ℚ) * top_order
      let sdiff : ℤ := top_size - size
      if 0 < sdiff then
        Except.ok (some (notional2, add_book tail top_order sdiff age))
      else if 0 < tail.length then
        clear_order order (-sdiff) tail op notional2
      else
        Except.ok none
    else
      Except.ok none

/-- `clear_book(buy, sell)`: while both books are non-empty, try to
clear the best buy against the sell book; on success drop the buy entry
and keep the new sell book, otherwise stop and return both unchanged.
`clear_order` is only invoked with a non-empty sell book, so the
`Except.error` outcome cannot occur (see `clear_order_not_error`); the
wildcard branch covers Python's `else: break`. -/
def clear_book : Ledger → Ledger → Ledger × Ledger
  | [], sell => ([], sell)
  | buy, [] => (buy, [])
  | (order, size, age) :: rest, s :: stail =>
    match clear_order order size (s :: stail) opGe 0 with
    | Except.ok (some (_, new_sell)) => clear_book rest new_sell
    | _ => ((order, size, age) :: rest, s :: stail)

/-- Order side, the `'buy'` / `'sell'` strings of the source. -/
inductive Side
  | buy
  | sell
deriving DecidableEq, Repr

/-- The per-instrument book dictionary `{'buy': ..., 'sell': ...}`. -/
structure Book where
  buy : Ledger
  sell : Ledger
deriving DecidableEq, Repr

/-- An incoming order `(t, stock, side, order, size)`. -/
abbrev IncomingOrder : Type := ℕ × String × Side × ℚ × ℤ

/-- An emitted snapshot `(t, bids, asks)`. -/
abbrev Snapshot : Type := ℕ × Ledger × Ledger

instance : DecidableEq Snapshot := fun a b => inferInstanceAs (Decidable (a = b))

instance : DecidableEq (Except Unit (Option (ℚ × Ledger))) := fun x y =>
  match x, y with
  | Except.error a, Except.error b => decidable_of_iff (a = b) (by simp)
  | Except.error _, Except.ok _ => isFalse (fun h => Except.noConfusion h)
  | Except.ok _, Except.error _ => isFalse (fun h => Except.noConfusion h)
  | Except.ok a, Except.ok b => decidable_of_iff (a = b) (by simp)

/-- Bid ordering: `sorted(..., reverse=True, key=lambda x: x[0])`,
price descending. -/
def bidRel (a b : Entry) : Prop := b.1 ≤ a.1

/-- Ask ordering: `sorted(..., key=lambda x: x[0])`, price ascending. -/
def askRel (a b : Entry) : Prop := a.1 ≤ b.1

instance : DecidableRel bidRel := fun a b => inferInstanceAs (Decidable (b.1 ≤ a.1))

instance : DecidableRel askRel := fun a b => inferInstanceAs (Decidable (a.1 ≤ b.1))

instance : IsTotal Entry bidRel := ⟨fun a b => le_total b.1 a.1⟩

instance : IsTrans Entry bidRel := ⟨fun _ _ _ hab hbc => le_trans hbc hab⟩

instance : IsTotal Entry askRel := ⟨fun a b => le_total a.1 b.1⟩

instance : IsTrans Entry askRel := ⟨fun _ _ _ hab hbc => le_trans hab hbc⟩

/-- Strictly-descending bid ordering (no shared prices). -/
def bidStrict (a b : Entry) : Prop := b.1 < a.1

/-- Strictly-ascending ask ordering (no shared prices). -/
def askStrict (a b : Entry) : Prop := a.1 < b.1

instance : DecidableRel bidStrict := fun a b => inferInstanceAs (Decidable (b.1 < a.1))

instance : DecidableRel askStrict := fun a b => inferInstanceAs (Decidable (a.1 < b.1))

/-- One iteration of the `order_book` loop body: if the instrument
matches, run insertion/aging on the ledger of the order's side and
re-sort it (Python's stable `sorted`, i.e. insertion sort); then in
either case uncross and emit the snapshot.  Note the snapshot is the
only place the uncrossed pair goes: the stored book keeps the
aged-and-sorted ledgers. -/
def process_order (stock_name : String) (book : Book) (o : IncomingOrder) :
    Book × Snapshot :=
  match o with
  | (t, stock, side, order, size) =>
    let book2 : Book :=
      if stock_name == stock then
        match side with
        | Side.buy =>
          Book.mk (List.insertionSort bidRel (add_book book.buy order size 10)) book.sell
        | Side.sell =>
          Book.mk book.buy (List.insertionSort askRel (add_book book.sell order size 10))
      else book
    (book2, (t, clear_book book2.buy book2.sell))

/-- `order_book(orders, book, stock_name)`: the generator, as the list
of snapshots it yields over a finite order stream. -/
def order_book (orders : List IncomingOrder) (book : Book) (stock_name : String) :
    List Snapshot :=
  match orders with
  | [] => []
  | o :: rest =>
    (process_order stock_name book o).2 ::
      order_book rest (process_order stock_name book o).1 stock_name

/-- The book state after consuming a stream of orders (the loop-carried
state of the `order_book` generator). -/
def run_book (orders : List IncomingOrder) (book : Book) (stock_name : String) : Book :=
  match orders with
  | [] => book
  | o :: rest => run_book rest (process_order stock_name book o).1 stock_name

/-- Order stream of the spec's scenario: bid (price 100, size 5) then
ask (price 90, size 3). -/
def demoA : List IncomingOrder :=
  [(0, "DOGE", Side.buy, 100, 5), (1, "DOGE", Side.sell, 90, 3)]

/-- Order stream exhibiting resolved liquidity that stays in the book:
ask (90, 3) then bid (100, 2). -/
def demoB : List IncomingOrder :=
  [(0, "DOGE", Side.sell, 90, 3), (1, "DOGE", Side.buy, 100, 2)]

/-- Two bids at the same price. -/
def demoC : List IncomingOrder :=
  [(0, "DOGE", Side.buy, 100, 5), (1, "DOGE", Side.buy, 100, 3)]

/-- A single order for another instrument. -/
def demoD : List IncomingOrder :=
  [(0, "BTC", Side.buy, 100, 5)]

/-! ### Unfolding equations -/

theorem clear_order_cons (order : ℚ) (size : ℤ) (top_order : ℚ) (top_size age : ℤ)
    (tail : Ledger) (op : ℚ → ℚ → Bool) (notional : ℚ) :
    clear_order order size ((top_order, top_size, age) :: tail) op notional =
      if op order top_order then
        if 0 < top_size - size then
          Except.ok (some (notional + ((intMin size top_size : ℤ) : ℚ) * top_order,
            add_book tail top_order (top_size - size) age))
        else if 0 < tail.length then
          clear_order order (-(top_size - size)) tail op
            (notional + ((intMin size top_size : ℤ) : ℚ) * top_order)
        else Except.ok none
      else Except.ok none := rfl

theorem clear_book_nil_left (sell : Ledger) : clear_book [] sell = ([], sell) := by
  cases sell <;> rfl

theorem clear_book_nil_right (buy : Ledger) : clear_book buy [] = (buy, []) := by
  cases buy <;> rfl

theorem clear_book_cons (order : ℚ) (size age : ℤ) (rest : Ledger) (s : Entry)
    (stail : Ledger) :
    clear_book ((order, size, age) :: rest) (s :: stail) =
      match clear_order order size (s :: stail) opGe 0 with
      | Except.ok (some (_, new_sell)) => clear_book rest new_sell
      | _ => ((order, size, age) :: rest, s :: stail) := rfl

/-! ### Helper lemmas -/

/-- The aging loop is a filter (keep `age > 0`) followed by decrementing
each surviving age. -/
theorem ageBook_eq (l : Ledger) :
    ageBook l = (l.filter fun e => decide (0 < e.2.2)).map fun e => (e.1, e.2.1, e.2.2 - 1) := by
  induction l with
  | nil => rfl
  | cons e rest ih =>
    obtain ⟨o, s, age⟩ := e
    by_cases h : 0 < age <;> simp [ageBook, h, ih, List.filter_cons]

/-- Aging preserves the multiset of prices up to deletion: every entry
of `ageBook l` has the price of some entry of `l`. -/
theorem mem_ageBook {x : Entry} {l : Ledger} (h : x ∈ ageBook l) :
    ∃ y ∈ l, y.1 = x.1 := by
  rw [ageBook_eq] at h
  obtain ⟨y, hy, rfl⟩ := List.mem_map.mp h
  exact ⟨y, List.mem_of_mem_filter hy, rfl⟩

/-- Aging preserves the ask ordering. -/
theorem ageBook_pairwise_askRel {l : Ledger} (h : List.Pairwise askRel l) :
    List.Pairwise askRel (ageBook l) := by
  rw [ageBook_eq]
  refine List.Pairwise.map _ (fun a b hab => hab) ?_
  exact List.Pairwise.sublist (List.filter_sublist l) h

/-- `clear_order` never raises on a non-empty book: the `IndexError`
case is only reachable on the empty ledger. -/
theorem clear_order_not_error (order : ℚ) (size : ℤ) (book : Ledger)
    (op : ℚ → ℚ → Bool) (notional : ℚ) (h : book ≠ []) :
    clear_order order size book op notional ≠ Except.error () := by
  induction book generalizing size notional with
  | nil => exact absurd rfl h
  | cons e tail ih =>
    obtain ⟨top_order, top_size, age⟩ := e
    rw [clear_order_cons]
    by_cases hop : op order top_order
    · by_cases hs : 0 < top_size - size
      · simp [hop, hs]
      · by_cases ht : 0 < tail.length
        · simpa [hop, hs, ht] using ih _ _ (List.length_pos.mp ht)
        · simp [hop, hs, ht]
    · simp [hop]

theorem clear_book_cons_some (order : ℚ) (size age : ℤ) (rest : Ledger) (s : Entry)
    (stail : Ledger) (n : ℚ) (new_sell : Ledger)
    (h : clear_order order size (s :: stail) opGe 0 = Except.ok (some (n, new_sell))) :
    clear_book ((order, size, age) :: rest) (s :: stail) = clear_book rest new_sell := by
  rw [clear_book_cons, h]

theorem clear_book_cons_none (order : ℚ) (size age : ℤ) (rest : Ledger) (s : Entry)
    (stail : Ledger)
    (h : clear_order order size (s :: stail) opGe 0 = Except.ok none) :
    clear_book ((order, size, age) :: rest) (s :: stail) =
      ((order, size, age) :: rest, s :: stail) := by
  rw [clear_book_cons, h]

/-- The uncrossing loop only ever drops whole entries from the front of
the buy ledger. -/
theorem clear_book_fst_suffix (buy sell : Ledger) :
    List.IsSuffix (clear_book buy sell).1 buy := by
  induction buy generalizing sell with
  | nil => rw [clear_book_nil_left]
  | cons e rest ih =>
    obtain ⟨order, size, age⟩ := e
    cases sell with
    | nil => rw [clear_book_nil_right]
    | cons s1 stail =>
      cases hco : clear_order order size (s1 :: stail) opGe 0 with
      | error u =>
        cases u
        exact absurd hco (clear_order_not_error _ _ _ _ _ (by simp))
      | ok val =>
        cases val with
        | none =>
          rw [clear_book_cons_none _ _ _ _ _ _ hco]
        | some p =>
          obtain ⟨n, new_sell⟩ := p
          rw [clear_book_cons_some _ _ _ _ _ _ _ _ hco]
          exact (ih new_sell).trans (List.suffix_cons _ _)

/-- When the uncrossing loop stops with both ledgers non-empty, the
resolver yields `None` on the resulting pair: the loop's stop condition
is exactly the resolver's absent result. -/
theorem clear_book_break (buy sell : Ledger) (e : Entry) (b s : Ledger)
    (h : clear_book buy sell = (e :: b, s)) (hs : s ≠ []) :
    clear_order e.1 e.2.1 s opGe 0 = Except.ok none := by
  induction buy generalizing sell with
  | nil =>
    rw [clear_book_nil_left] at h
    exact absurd (congrArg Prod.fst h) (by simp)
  | cons e2 rest ih =>
    obtain ⟨order, size, age⟩ := e2
    cases sell with
    | nil =>
      rw [clear_book_nil_right] at h
      exact absurd (congrArg Prod.snd h).symm hs
    | cons s1 stail =>
      cases hco : clear_order order size (s1 :: stail) opGe 0 with
      | error u =>
        cases u
        exact absurd hco (clear_order_not_error _ _ _ _ _ (by simp))
      | ok val =>
        cases val with
        | none =>
          rw [clear_book_cons_none _ _ _ _ _ _ hco] at h
          have h1 : e = (order, size, age) := by
            have := congrArg Prod.fst h
            simp only [Prod.fst] at this
            exact (List.cons.injEq _ _ _ _ ▸ this.symm).1
          have h2 : s = s1 :: stail := (congrArg Prod.snd h).symm
          rw [h1, h2]
          exact hco
        | some p =>
          obtain ⟨n, new_sell⟩ := p
          rw [clear_book_cons_some _ _ _ _ _ _ _ _ hco] at h
          exact ih new_sell h

/-- A successful crossing resolution keeps the opposite ledger sorted by
ascending price. -/
theorem clear_order_sorted (book : Ledger) (order : ℚ) :
    ∀ (size : ℤ) (op : ℚ → ℚ → Bool) (notional n : ℚ) (new_sell : Ledger),
      List.Pairwise askRel book →
      clear_order order size book op notional = Except.ok (some (n, new_sell)) →
      List.Pairwise askRel new_sell := by
  induction book with
  | nil =>
    intro size op notional n new_sell _ h
    exact absurd h (by simp [clear_order])
  | cons e tail ih =>
    intro size op notional n new_sell hs h
    obtain ⟨top_order, top_size, age⟩ := e
    rw [clear_order_cons] at h
    by_cases hop : op order top_order
    · rw [if_pos hop] at h
      by_cases hsd : 0 < top_size - size
      · rw [if_pos hsd] at h
        simp only [Except.ok.injEq, Option.some.injEq, Prod.mk.injEq] at h
        obtain ⟨-, h2⟩ := h
        rw [← h2, add_book]
        obtain ⟨hhead, htail⟩ := List.pairwise_cons.mp hs
        refine List.pairwise_cons.mpr ⟨?_, ageBook_pairwise_askRel htail⟩
        intro x hx
        obtain ⟨y, hy, hyx⟩ := mem_ageBook hx
        have := hhead y hy
        unfold askRel at this ⊢
        rw [← hyx]
        exact this
      · rw [if_neg hsd] at h
        by_cases ht : 0 < tail.length
        · rw [if_pos ht] at h
          exact ih _ _ _ _ _ (List.Pairwise.of_cons hs) h
        · rw [if_neg ht] at h
          exact absurd h (by simp)
    · rw [if_neg hop] at h
      exact absurd h (by simp)

/-- The uncrossing loop keeps the sell ledger sorted ascending. -/
theorem clear_book_snd_sorted (buy : Ledger) :
    ∀ sell : Ledger, List.Pairwise askRel sell →
      List.Pairwise askRel (clear_book buy sell).2 := by
  induction buy with
  | nil =>
    intro sell hs
    rw [clear_book_nil_left]
    exact hs
  | cons e rest ih =>
    intro sell hs
    obtain ⟨order, size, age⟩ := e
    cases sell with
    | nil =>
      rw [clear_book_nil_right]
      exact hs
    | cons s1 stail =>
      cases hco : clear_order order size (s1 :: stail) opGe 0 with
      | error u =>
        cases u
        exact absurd hco (clear_order_not_error _ _ _ _ _ (by simp))
      | ok val =>
        cases val with
        | none =>
          rw [clear_book_cons_none _ _ _ _ _ _ hco]
          exact hs
        | some p =>
          obtain ⟨n, new_sell⟩ := p
          rw [clear_book_cons_some _ _ _ _ _ _ _ _ hco]
          exact ih new_sell (clear_order_sorted _ _ _ _ _ _ _ hs hco)

/-- The uncrossing loop keeps the buy ledger sorted descending. -/
theorem clear_book_fst_sorted (buy sell : Ledger) (hb : List.Pairwise bidRel buy) :
    List.Pairwise bidRel (clear_book buy sell).1 :=
  hb.sublist (clear_book_fst_suffix buy sell).sublist

/-- The snapshot component of a processing step is the uncrossing of the
stored (post-insertion, pre-uncross) book. -/
theorem process_order_snd (name : String) (book : Book) (o : IncomingOrder) :
    (process_order name book o).2 =
      (o.1, clear_book (process_order name book o).1.buy (process_order name book o).1.sell) := by
  obtain ⟨t, stock, side, order, size⟩ := o
  cases side <;> by_cases h : name == stock <;> simp [process_order, h]

/-- A processing step keeps both stored ledgers sorted. -/
theorem process_order_sorted (name : String) (book : Book) (o : IncomingOrder)
    (hb : List.Pairwise bidRel book.buy) (hs : List.Pairwise askRel book.sell) :
    List.Pairwise bidRel (process_order name book o).1.buy ∧
      List.Pairwise askRel (process_order name book o).1.sell := by
  obtain ⟨t, stock, side, order, size⟩ := o
  by_cases h : name == stock
  · cases side
    · constructor
      · simpa [process_order, h] using List.sorted_insertionSort bidRel (add_book book.buy order size 10)
      · simpa [process_order, h] using hs
    · constructor
      · simpa [process_order, h] using hb
      · simpa [process_order, h] using List.sorted_insertionSort askRel (add_book book.sell order size 10)
  · constructor
    · simpa [process_order, h] using hb
    · simpa [process_order, h] using hs

/-- Every emitted snapshot is the uncrossing of some stored book, and
that book is sorted whenever the initial book is. -/
theorem order_book_snap (orders : List IncomingOrder) :
    ∀ (book : Book) (name : String) (snap : Snapshot),
      snap ∈ order_book orders book name →
      ∃ b : Book,
        snap.2 = clear_book b.buy b.sell ∧
        (List.Pairwise bidRel book.buy → List.Pairwise askRel book.sell →
          List.Pairwise bidRel b.buy ∧ List.Pairwise askRel b.sell) := by
  induction orders with
  | nil =>
    intro book name snap h
    exact absurd h (by simp [order_book])
  | cons o rest ih =>
    intro book name snap h
    rw [order_book, List.mem_cons] at h
    rcases h with rfl | h
    · refine ⟨(process_order name book o).1, ?_, fun hb hs => process_order_sorted name book o hb hs⟩
      rw [process_order_snd]
    · obtain ⟨b, h1, h2⟩ := ih (process_order name book o).1 name snap h
      refine ⟨b, h1, fun hb hs => ?_⟩
      obtain ⟨hb2, hs2⟩ := process_order_sorted name book o hb hs
      exact h2 hb2 hs2

/-! ### Claims -/

/-- C1 (corrected). The spec's no-cross invariant `best_bid.price <
best_ask.price` fails (see `no_cross_counterexample`); what holds is
that on every emitted snapshot with non-empty bids and asks, the
crossing resolver applied to the best bid against the ask ledger yields
the absent result: either the prices no longer cross, or the cross is
unresolvable because the ask ledger would be exhausted with bid size
remaining. -/
theorem no_cross_amended (orders : List IncomingOrder) (book : Book) (name : String)
    (snap : Snapshot) (hmem : snap ∈ order_book orders book name)
    (e : Entry) (brest : Ledger) (hb : snap.2.1 = e :: brest) (hs : snap.2.2 ≠ []) :
    clear_order e.1 e.2.1 snap.2.2 opGe 0 = Except.ok none := by
  obtain ⟨b, hsnap, -⟩ := order_book_snap orders book name snap hmem
  refine clear_book_break b.buy b.sell e brest snap.2.2 ?_ hs
  rw [← hsnap, ← hb]

theorem no_cross_amended_witness :
    ((1, [((100:ℚ), (5:ℤ), (10:ℤ))], [((90:ℚ), (3:ℤ), (10:ℤ))]) : Snapshot) ∈
        order_book demoA (Book.mk [] []) "DOGE" ∧
    ([((100:ℚ), (5:ℤ), (10:ℤ))] : Ledger) = ((100:ℚ), (5:ℤ), (10:ℤ)) :: [] ∧
    ([((90:ℚ), (3:ℤ), (10:ℤ))] : Ledger) ≠ [] ∧
    clear_order 100 5 [((90:ℚ), 3, 10)] opGe 0 = Except.ok none :=
  ⟨by decide, rfl, by decide,
    no_cross_amended demoA (Book.mk [] []) "DOGE"
      ((1, [((100:ℚ), (5:ℤ), (10:ℤ))], [((90:ℚ), (3:ℤ), (10:ℤ))]) : Snapshot)
      (by decide) ((100:ℚ), (5:ℤ), (10:ℤ)) [] rfl (by decide)⟩

theorem no_cross_counterexample :
    ¬ (∀ snap ∈ order_book demoA (Book.mk [] []) "DOGE",
        snap.2.1 ≠ [] → snap.2.2 ≠ [] → snap.2.1.headI.1 < snap.2.2.headI.1) := by
  decide

/-- C2 (corrected). After the bid (100, 5) and the ask (90, 3), the
resolver exhausts the ask ledger with bid size remaining and returns
the absent result, so the crossed pair is emitted unchanged: the second
snapshot is `bids=[(100,5,10)], asks=[(90,3,10)]`, not the
`bids=[(100,2,9)], asks=[]` of the spec scenario. -/
theorem scenario_amended :
    order_book demoA (Book.mk [] []) "DOGE" =
      [(0, [((100:ℚ), (5:ℤ), (10:ℤ))], []),
       (1, [((100:ℚ), (5:ℤ), (10:ℤ))], [((90:ℚ), (3:ℤ), (10:ℤ))])] := by
  decide

theorem scenario_counterexample :
    order_book demoA (Book.mk [] []) "DOGE" ≠
      [(0, [((100:ℚ), (5:ℤ), (10:ℤ))], []),
       (1, [((100:ℚ), (2:ℤ), (9:ℤ))], [])] := by
  decide

/-- C3 (confirmed). The stored book after a processing step is exactly
the aged-and-sorted (pre-uncross) pair — `clear_book`'s output goes only
into the emitted snapshot — and concretely, after `demoB` the book still
holds the bid and the full ask that the last snapshot showed as matched
away. -/
theorem process_order_frame :
    (∀ (name : String) (book : Book) (t : ℕ) (stock : String) (side : Side)
        (order : ℚ) (size : ℤ),
        (process_order name book (t, stock, side, order, size)).1 =
          (if name == stock then
            match side with
            | Side.buy =>
              Book.mk (List.insertionSort bidRel (add_book book.buy order size 10)) book.sell
            | Side.sell =>
              Book.mk book.buy (List.insertionSort askRel (add_book book.sell order size 10))
          else book)) ∧
    (∀ (name : String) (book : Book) (o : IncomingOrder),
        (process_order name book o).2 =
          (o.1, clear_book (process_order name book o).1.buy
            (process_order name book o).1.sell)) ∧
    run_book demoB (Book.mk [] []) "DOGE" =
      Book.mk [((100:ℚ), (2:ℤ), (10:ℤ))] [((90:ℚ), (3:ℤ), (10:ℤ))] ∧
    order_book demoB (Book.mk [] []) "DOGE" =
      [(0, [], [((90:ℚ), (3:ℤ), (10:ℤ))]), (1, [], [((90:ℚ), (1:ℤ), (10:ℤ))])] :=
  ⟨fun _ _ _ _ _ _ _ => rfl,
   fun name book o => process_order_snd name book o,
   by decide, by decide⟩

/-- C4 (corrected). With an empty opposite ledger `clear_order` raises
`IndexError` from `book[0]` (modelled `Except.error ()`) instead of
returning the absent result; on every non-empty ledger it never raises:
"no cross" and "ledger exhausted" come back as the absent result. -/
theorem clear_order_empty_amended :
    (∀ (order : ℚ) (size : ℤ) (op : ℚ → ℚ → Bool) (notional : ℚ),
      clear_order order size [] op notional = Except.error ()) ∧
    (∀ (order : ℚ) (size : ℤ) (book : Ledger) (op : ℚ → ℚ → Bool) (notional : ℚ),
      book ≠ [] → clear_order order size book op notional ≠ Except.error ()) :=
  ⟨fun _ _ _ _ => rfl,
   fun order size book op notional h => clear_order_not_error order size book op notional h⟩

theorem clear_order_empty_amended_witness :
    clear_order 100 5 [] opGe 0 = Except.error () ∧
    (([((90:ℚ), (3:ℤ), (10:ℤ))] : Ledger) ≠ [] ∧
      clear_order 100 5 [((90:ℚ), 3, 10)] opGe 0 ≠ Except.error ()) :=
  ⟨clear_order_empty_amended.1 100 5 opGe 0,
   by decide,
   clear_order_empty_amended.2 100 5 [((90:ℚ), 3, 10)] opGe 0 (by decide)⟩

theorem clear_order_empty_counterexample :
    clear_order 100 5 [] opGe 0 = Except.error () ∧
    clear_order 100 5 [] opGe 0 ≠ Except.ok none :=
  ⟨rfl, by decide⟩

/-- C5 (corrected). On a partial fill of the front resting order, the
remainder keeps its `remaining_life`, but the rest of the ledger is NOT
untouched: it goes through the aging step (`add_book`'s loop), which
decrements every surviving entry's life and drops entries whose life
was already `≤ 0`. -/
theorem clear_order_partial_amended (order top_order : ℚ) (size top_size age : ℤ)
    (tail : Ledger) (op : ℚ → ℚ → Bool) (notional : ℚ)
    (hop : op order top_order = true) (hrem : 0 < top_size - size) :
    clear_order order size ((top_order, top_size, age) :: tail) op notional =
      Except.ok (some (notional + ((intMin size top_size : ℤ) : ℚ) * top_order,
        (top_order, top_size - size, age) ::
          ((tail.filter fun e => decide (0 < e.2.2)).map fun e => (e.1, e.2.1, e.2.2 - 1)))) := by
  rw [clear_order_cons, if_pos hop, if_pos hrem, add_book, ageBook_eq]

theorem clear_order_partial_amended_witness :
    opGe 10 10 = true ∧ (0:ℤ) < 5 - 2 ∧
    clear_order 10 2 [((10:ℚ), 5, 3), ((11:ℚ), 2, 7)] opGe 0 =
      Except.ok (some (20, [((10:ℚ), (3:ℤ), (3:ℤ)), ((11:ℚ), (2:ℤ), (6:ℤ))])) :=
  ⟨by decide, by decide,
    (clear_order_partial_amended 10 10 2 5 3 [((11:ℚ), 2, 7)] opGe 0
        (by decide) (by decide)).trans
      (by norm_num [intMin, List.filter, List.map])⟩

theorem clear_order_partial_counterexample :
    clear_order 10 2 [((10:ℚ), 5, 3), ((11:ℚ), 2, 7)] opGe 0 =
      Except.ok (some (20, [((10:ℚ), (3:ℤ), (3:ℤ)), ((11:ℚ), (2:ℤ), (6:ℤ))])) ∧
    [((10:ℚ), (3:ℤ), (3:ℤ)), ((11:ℚ), (2:ℤ), (6:ℤ))] ≠
      [((10:ℚ), (3:ℤ), (3:ℤ)), ((11:ℚ), (2:ℤ), (7:ℤ))] :=
  ⟨by norm_num [clear_order, opGe, intMin, add_book, ageBook], by decide⟩

/-- C6 (corrected). `add_book` keeps every prior entry whose
remaining_life BEFORE decrementing is `> 0` (so an entry can appear
with decremented life `0`); entries are dropped only once their stored
life has reached `≤ 0`. -/
theorem add_book_amended (book : Ledger) (order : ℚ) (size : ℤ) :
    add_book book order size 10 =
      (order, size, 10) ::
        ((book.filter fun e => decide (0 < e.2.2)).map fun e => (e.1, e.2.1, e.2.2 - 1)) := by
  rw [add_book, ageBook_eq]

theorem add_book_counterexample :
    add_book [((50:ℚ), 1, 1)] 100 5 10 =
      [((100:ℚ), (5:ℤ), (10:ℤ)), ((50:ℚ), (1:ℤ), (0:ℤ))] ∧
    ((50:ℚ), (1:ℤ), (0:ℤ)) ∈ add_book [((50:ℚ), 1, 1)] 100 5 10 ∧
    ¬ ((0:ℤ) < 0) := by
  decide

/-- C7 (corrected). `order_book` yields a snapshot for EVERY incoming
order (the `yield` sits outside the instrument test), not only for
orders of the queried instrument. -/
theorem order_book_length (orders : List IncomingOrder) (book : Book) (name : String) :
    (order_book orders book name).length = orders.length := by
  induction orders generalizing book with
  | nil => rfl
  | cons o rest ih => simpa [order_book] using ih (process_order name book o).1

theorem order_book_length_counterexample :
    (order_book demoD (Book.mk [] []) "DOGE").length ≠
      (demoD.filter fun o => o.2.1 == "DOGE").length := by
  decide

/-- C8 (corrected). Strict sortedness fails (two bids can share a
price, see the counterexample); what holds is non-strict sortedness: in
every snapshot emitted from a book with sorted sides, bids are sorted
descending by price and asks ascending. -/
theorem snapshot_sorted (orders : List IncomingOrder) (book : Book) (name : String)
    (hb : List.Pairwise bidRel book.buy) (hs : List.Pairwise askRel book.sell)
    (snap : Snapshot) (hmem : snap ∈ order_book orders book name) :
    List.Pairwise bidRel snap.2.1 ∧ List.Pairwise askRel snap.2.2 := by
  obtain ⟨b, hsnap, hsorted⟩ := order_book_snap orders book name snap hmem
  obtain ⟨hbb, hbs⟩ := hsorted hb hs
  have h1 : snap.2.1 = (clear_book b.buy b.sell).1 := congrArg Prod.fst hsnap
  have h2 : snap.2.2 = (clear_book b.buy b.sell).2 := congrArg Prod.snd hsnap
  rw [h1, h2]
  exact ⟨clear_book_fst_sorted b.buy b.sell hbb, clear_book_snd_sorted b.buy b.sell hbs⟩

theorem snapshot_sorted_witness :
    List.Pairwise bidRel (Book.mk [] []).buy ∧
    List.Pairwise askRel (Book.mk [] []).sell ∧
    ((1, [((100:ℚ), (3:ℤ), (10:ℤ)), ((100:ℚ), (5:ℤ), (9:ℤ))], []) : Snapshot) ∈
        order_book demoC (Book.mk [] []) "DOGE" ∧
    (List.Pairwise bidRel [((100:ℚ), (3:ℤ), (10:ℤ)), ((100:ℚ), (5:ℤ), (9:ℤ))] ∧
      List.Pairwise askRel ([] : Ledger)) :=
  ⟨List.Pairwise.nil, List.Pairwise.nil, by decide,
    snapshot_sorted demoC (Book.mk [] []) "DOGE" List.Pairwise.nil List.Pairwise.nil
      ((1, [((100:ℚ), (3:ℤ), (10:ℤ)), ((100:ℚ), (5:ℤ), (9:ℤ))], []) : Snapshot) (by decide)⟩

theorem snapshot_sorted_counterexample :
    ¬ (∀ snap ∈ order_book demoC (Book.mk [] []) "DOGE",
        List.Pairwise bidStrict snap.2.1 ∧ List.Pairwise askStrict snap.2.2) := by
  decide

/-- C9 (confirmed). The uncrossing loop is idempotent: applied to its
own output it returns that output unchanged. -/
theorem clear_book_idempotent (buy sell : Ledger) :
    clear_book (clear_book buy sell).1 (clear_book buy sell).2 = clear_book buy sell := by
  rcases h : clear_book buy sell with ⟨b, s⟩
  cases b with
  | nil => exact clear_book_nil_left s
  | cons e bt =>
    cases s with
    | nil => exact clear_book_nil_right (e :: bt)
    | cons s1 st =>
      have hco := clear_book_break buy sell e bt (s1 :: st) h (by simp)
      obtain ⟨o, sz, a⟩ := e
      exact clear_book_cons_none o sz a bt s1 st hco

/-- C10 (confirmed). The buy ledger returned by the uncrossing loop is
a suffix of the input buy ledger: whole entries are dropped from the
front and the surviving entries are untouched. -/
theorem clear_book_buy_suffix (buy sell : Ledger) :
    List.IsSuffix (clear_book buy sell).1 buy :=
  clear_book_fst_suffix buy sell
